import Mathlib

/-!
# Verification of the site2md crawl engine

A shallow embedding in Lean 4 of the crawl orchestration core of the
`site2md` repository (`crawler.py`, `markdown_generator.py`, `main.py`),
together with the relevant fragment of Python's `urllib.parse` and of the
MD5 digest used by `hashlib.md5(...).hexdigest()`.

Strings are modelled as Lean `String`/`List Char`; Python exceptions are
modelled with `Except String`; the crawler object's mutable attributes are
modelled as an explicit `CrawlerState` threaded through every operation.
The filesystem page directory is modelled as an association list from file
name to the JSON record `save_page` writes (the `timestamp` field, a wall
clock reading, is omitted: nothing in the code ever reads it back for a
decision).  The `urllib.parse` model covers the ASCII fragment of the
library: the tab/CR/LF removal, scheme/netloc/fragment/query/params
splitting, and the `Invalid IPv6 URL` ValueError raised on a netloc whose
square brackets are unbalanced; the non-ASCII NFKC netloc check is out of
scope since every URL in this development is ASCII.
-/

set_option maxRecDepth 4000

deriving instance DecidableEq for Except

/-! ## Python string primitives -/

/-- Python `needle in haystack` for strings (contiguous substring test). -/
def containsSub (pat : List Char) : List Char → Bool
  | [] => pat.isEmpty
  | c :: rest => pat.isPrefixOf (c :: rest) || containsSub pat rest

/-- Worker for `replaceAll`, structurally recursive on a fuel argument.
Every step consumes at least one character of `s`, so fuel `s.length`
makes the fuel-exhausted arm unreachable (`replaceAllAux_fuel` below). -/
def replaceAllAux (pat repl : List Char) : Nat → List Char → List Char
  | _, [] => []
  | 0, s => s
  | fuel + 1, c :: rest =>
    if ¬pat.isEmpty ∧ pat.isPrefixOf (c :: rest) then
      repl ++ replaceAllAux pat repl fuel ((c :: rest).drop pat.length)
    else
      c :: replaceAllAux pat repl fuel rest

/-- Python `s.replace(old, new)`: replace every non-overlapping occurrence
of `pat`, scanning left to right.  (Only ever called with `pat ≠ []`.) -/
def replaceAll (pat repl : List Char) (s : List Char) : List Char :=
  replaceAllAux pat repl s.length s

/-- Split a list at the first occurrence of `c`:
`splitAtFirst c s = some (pre, post)` with `s = pre ++ c :: post` and
`c ∉ pre`; `none` when `c ∉ s`.  Models Python `s.split(c, 1)` /
`s.find(c)`. -/
def splitAtFirst (c : Char) : List Char → Option (List Char × List Char)
  | [] => none
  | x :: rest =>
    if x = c then some ([], rest)
    else (splitAtFirst c rest).map (fun p => (x :: p.1, p.2))

/-- Split a list at the last occurrence of `c` (Python `s.rfind(c)`). -/
def splitAtLast (c : Char) (s : List Char) : Option (List Char × List Char) :=
  (splitAtFirst c s.reverse).map (fun p => (p.2.reverse, p.1.reverse))

/-- ASCII lower-casing of one character (Python `str.lower` restricted to
the ASCII scheme characters it is applied to). -/
def lowerChar (c : Char) : Char :=
  if 'A' ≤ c ∧ c ≤ 'Z' then Char.ofNat (c.toNat + 32) else c

/-- Python `s.strip(ch)` for a single strip character. -/
def stripChar (ch : Char) (s : List Char) : List Char :=
  ((s.dropWhile (· = ch)).reverse.dropWhile (· = ch)).reverse

/-! ## The modelled fragment of `urllib.parse` -/

/-- Result of `urllib.parse.urlsplit`. -/
structure UrlSplitResult where
  scheme : List Char
  netloc : List Char
  path : List Char
  query : List Char
  fragment : List Char
deriving DecidableEq, Repr

/-- Result of `urllib.parse.urlparse` (urlsplit plus `params`). -/
structure UrlParseResult where
  scheme : List Char
  netloc : List Char
  path : List Char
  params : List Char
  query : List Char
  fragment : List Char
deriving DecidableEq, Repr

/-- `urllib.parse.scheme_chars` membership. -/
def isSchemeChar (c : Char) : Bool :=
  c.isAlpha || c.isDigit || c = '+' || c = '-' || c = '.'

/-- urlsplit's removal of the unsafe bytes `\t`, `\r`, `\n` from the URL. -/
def removeUnsafe (s : List Char) : List Char :=
  s.filter (fun c => ¬(c = '\t' ∨ c = '\r' ∨ c = '\n'))

/-- Scheme extraction from `urlsplit`: a scheme is split off when the
first `:` is preceded by a non-empty run of scheme characters starting
with an ASCII letter; the scheme is lower-cased. -/
def splitScheme (url : List Char) : List Char × List Char :=
  match splitAtFirst ':' url with
  | some (pre, post) =>
    match pre with
    | [] => ([], url)
    | c0 :: _ =>
      if c0.isAlpha ∧ pre.all isSchemeChar then (pre.map lowerChar, post)
      else ([], url)
  | none => ([], url)

/-- Netloc extraction from `urlsplit` (`_splitnetloc` plus the bracket
balance check that raises `ValueError('Invalid IPv6 URL')`). -/
def splitNetloc (url : List Char) : Except String (List Char × List Char) :=
  if ['/', '/'].isPrefixOf url then
    let rest := url.drop 2
    let netloc := rest.takeWhile (fun c => ¬(c = '/' ∨ c = '?' ∨ c = '#'))
    let rem := rest.dropWhile (fun c => ¬(c = '/' ∨ c = '?' ∨ c = '#'))
    if ('[' ∈ netloc ∧ ']' ∉ netloc) ∨ (']' ∈ netloc ∧ '[' ∉ netloc) then
      .error "Invalid IPv6 URL"
    else
      .ok (netloc, rem)
  else
    .ok ([], url)

/-- Python `s.split(c, 1)` as a total pair: `(s, '')` when `c ∉ s`. -/
def splitOnceDefault (c : Char) (s : List Char) : List Char × List Char :=
  match splitAtFirst c s with
  | some (a, b) => (a, b)
  | none => (s, [])

/-- `urllib.parse.urlsplit` (ASCII fragment; fragment split before query,
matching the library's order). -/
def urlsplit (url0 : List Char) : Except String UrlSplitResult :=
  let url := removeUnsafe url0
  let sr := splitScheme url
  match splitNetloc sr.2 with
  | .error e => .error e
  | .ok nl =>
    let fr := splitOnceDefault '#' nl.2
    let pq := splitOnceDefault '?' fr.1
    .ok ⟨sr.1, nl.1, pq.1, pq.2, fr.2⟩

/-- `urllib.parse._splitparams`: split `;params` off the last path
segment.  Only reached when `;` occurs in the path. -/
def splitparams (url : List Char) : List Char × List Char :=
  if '/' ∈ url then
    match splitAtLast '/' url with
    | some (pre, last) =>
      match splitAtFirst ';' last with
      | some (a, b) => (pre ++ '/' :: a, b)
      | none => (url, [])
    | none => (url, [])
  else
    match splitAtFirst ';' url with
    | some (a, b) => (a, b)
    | none => (url, [])

/-- `urllib.parse.urlparse`. -/
def urlparse (url : List Char) : Except String UrlParseResult := do
  let s ← urlsplit url
  let pp := if ';' ∈ s.path then splitparams s.path else (s.path, [])
  return ⟨s.scheme, s.netloc, pp.1, pp.2, s.query, s.fragment⟩

/-- `urllib.parse.urlunsplit`. -/
def urlunsplit (scheme netloc path query fragment : List Char) : List Char :=
  let url := path
  let url :=
    if netloc ≠ [] ∨ (url ≠ [] ∧ ['/', '/'].isPrefixOf url) then
      let url := if url ≠ [] ∧ ¬['/'].isPrefixOf url then '/' :: url else url
      '/' :: '/' :: (netloc ++ url)
    else url
  let url := if scheme ≠ [] then scheme ++ ':' :: url else url
  let url := if query ≠ [] then url ++ '?' :: query else url
  let url := if fragment ≠ [] then url ++ '#' :: fragment else url
  url

/-- `urllib.parse.urlunparse`. -/
def urlunparse (scheme netloc path params query fragment : List Char) : List Char :=
  let path := if params ≠ [] then path ++ ';' :: params else path
  urlunsplit scheme netloc path query fragment

/-- `urllib.parse.urldefrag`, first component: the URL with its fragment
removed (a parse/unparse round trip when `#` occurs). -/
def urldefrag (url : List Char) : Except String (List Char) :=
  if '#' ∈ url then do
    let p ← urlparse url
    return urlunparse p.scheme p.netloc p.path p.params p.query []
  else
    .ok url

/-! ## `WebsiteCrawler.normalize_url` -/

/-- Worker for the `while '//' in normalized:` loop of `normalize_url`,
structurally recursive on a fuel argument.  Each pass through the loop
strictly shortens the string (`replaceAll "//" "/"` removes at least one
character when `//` occurs), so fuel `s.length` makes the fuel-exhausted
arm unreachable (`collapseSlashes_eq` below recovers the loop's
fixed-point equation). -/
def collapseSlashesAux : Nat → List Char → List Char
  | 0, s => s
  | fuel + 1, s =>
    if containsSub ['/', '/'] s then
      collapseSlashesAux fuel (replaceAll ['/', '/'] ['/'] s)
    else s

/-- The `while '//' in normalized: normalized = normalized.replace('//', '/')`
loop of `normalize_url` (crawler.py lines 118–120). -/
def collapseSlashes (s : List Char) : List Char :=
  collapseSlashesAux s.length s

/-- `WebsiteCrawler.normalize_url` (crawler.py lines 95–125): strip the
fragment, re-parse, default an empty path to `/`, rebuild
`scheme://netloc+path`, collapse repeated slashes, then restore the `://`
separator by rewriting `://` to `:/` and `:/` to `://`. -/
def normalize_url (url : String) : Except String String := do
  let defragged ← urldefrag url.data
  let p ← urlparse defragged
  let path := if p.path = [] then ['/'] else p.path
  let normalized := p.scheme ++ ':' :: '/' :: '/' :: (p.netloc ++ path)
  let normalized := collapseSlashes normalized
  let normalized := replaceAll [':', '/', '/'] [':', '/'] normalized
  let normalized := replaceAll [':', '/'] [':', '/', '/'] normalized
  return String.mk normalized

/-! ## MD5 (`hashlib.md5(...).hexdigest()`)

A direct implementation of RFC 1321 over `Nat`, with 32-bit arithmetic
made explicit through `% 2^32`.  `md5Hex` is the model of
`hashlib.md5(s.encode('utf-8')).hexdigest()`. -/

/-- Truncate to a 32-bit word. -/
def w32 (n : Nat) : Nat := n % 4294967296

/-- 32-bit left rotation (input assumed `< 2^32`). -/
def rotl32 (x s : Nat) : Nat := (x * 2 ^ s + x / 2 ^ (32 - s)) % 4294967296

/-- The MD5 sine-derived constant table `K` (RFC 1321). -/
def md5K : List Nat :=
  [0xd76aa478, 0xe8c7b756, 0x242070db, 0xc1bdceee,
   0xf57c0faf, 0x4787c62a, 0xa8304613, 0xfd469501,
   0x698098d8, 0x8b44f7af, 0xffff5bb1, 0x895cd7be,
   0x6b901122, 0xfd987193, 0xa679438e, 0x49b40821,
   0xf61e2562, 0xc040b340, 0x265e5a51, 0xe9b6c7aa,
   0xd62f105d, 0x02441453, 0xd8a1e681, 0xe7d3fbc8,
   0x21e1cde6, 0xc33707d6, 0xf4d50d87, 0x455a14ed,
   0xa9e3e905, 0xfcefa3f8, 0x676f02d9, 0x8d2a4c8a,
   0xfffa3942, 0x8771f681, 0x6d9d6122, 0xfde5380c,
   0xa4beea44, 0x4bdecfa9, 0xf6bb4b60, 0xbebfbc70,
   0x289b7ec6, 0xeaa127fa, 0xd4ef3085, 0x04881d05,
   0xd9d4d039, 0xe6db99e5, 0x1fa27cf8, 0xc4ac5665,
   0xf4292244, 0x432aff97, 0xab9423a7, 0xfc93a039,
   0x655b59c3, 0x8f0ccc92, 0xffeff47d, 0x85845dd1,
   0x6fa87e4f, 0xfe2ce6e0, 0xa3014314, 0x4e0811a1,
   0xf7537e82, 0xbd3af235, 0x2ad7d2bb, 0xeb86d391]

/-- The MD5 per-round shift amounts. -/
def md5S : List Nat :=
  [7, 12, 17, 22, 7, 12, 17, 22, 7, 12, 17, 22, 7, 12, 17, 22,
   5, 9, 14, 20, 5, 9, 14, 20, 5, 9, 14, 20, 5, 9, 14, 20,
   4, 11, 16, 23, 4, 11, 16, 23, 4, 11, 16, 23, 4, 11, 16, 23,
   6, 10, 15, 21, 6, 10, 15, 21, 6, 10, 15, 21, 6, 10, 15, 21]

/-- The MD5 nonlinear function for round `i` applied to `b`, `c`, `d`. -/
def md5F (b c d i : Nat) : Nat :=
  if i < 16 then (b &&& c) ||| ((4294967295 - b) &&& d)
  else if i < 32 then (d &&& b) ||| ((4294967295 - d) &&& c)
  else if i < 48 then (b ^^^ c) ^^^ d
  else c ^^^ (b ||| (4294967295 - d))

/-- The MD5 message-word index for round `i`. -/
def md5G (i : Nat) : Nat :=
  if i < 16 then i
  else if i < 32 then (5 * i + 1) % 16
  else if i < 48 then (3 * i + 5) % 16
  else (7 * i) % 16

/-- One of the 64 MD5 operations on the working state `(a, b, c, d)`. -/
def md5Step (M : List Nat) (st : Nat × Nat × Nat × Nat) (i : Nat) :
    Nat × Nat × Nat × Nat :=
  let (a, b, c, d) := st
  let f := w32 (md5F b c d i + a + md5K.getD i 0 + M.getD (md5G i) 0)
  (d, w32 (b + rotl32 f (md5S.getD i 0)), b, c)

/-- Process one 16-word block, updating the four chaining words. -/
def md5ProcessBlock (h : Nat × Nat × Nat × Nat) (M : List Nat) :
    Nat × Nat × Nat × Nat :=
  let (a, b, c, d) := (List.range 64).foldl (md5Step M) h
  (w32 (h.1 + a), w32 (h.2.1 + b), w32 (h.2.2.1 + c), w32 (h.2.2.2 + d))

/-- UTF-8 encoding of one Unicode scalar value (Python `str.encode('utf-8')`). -/
def utf8EncodeChar (c : Char) : List Nat :=
  let n := c.toNat
  if n < 0x80 then [n]
  else if n < 0x800 then [0xC0 + n / 64, 0x80 + n % 64]
  else if n < 0x10000 then
    [0xE0 + n / 4096, 0x80 + (n / 64) % 64, 0x80 + n % 64]
  else
    [0xF0 + n / 262144, 0x80 + (n / 4096) % 64, 0x80 + (n / 64) % 64,
     0x80 + n % 64]

/-- UTF-8 encoding of a string as a byte list. -/
def utf8Encode (s : String) : List Nat :=
  (s.data.map utf8EncodeChar).flatten

/-- MD5 padding: append `0x80`, zero-pad to 56 mod 64, then the original
bit length as 8 little-endian bytes. -/
def md5Pad (msg : List Nat) : List Nat :=
  msg ++ [0x80] ++ List.replicate ((119 - msg.length % 64) % 64) 0 ++
    (List.range 8).map (fun i => (msg.length * 8) % 2 ^ 64 / 256 ^ i % 256)

/-- Split a padded message into 16-word blocks of little-endian 32-bit
words (the message length is a multiple of 64 bytes; recursion is
structural on a fuel argument that the wrapper sets large enough). -/
def md5BlocksAux : Nat → List Nat → List (List Nat)
  | _, [] => []
  | 0, _ => []
  | fuel + 1, bytes =>
    ((List.range 16).map (fun j =>
        bytes.getD (4 * j) 0 + 256 * bytes.getD (4 * j + 1) 0 +
        65536 * bytes.getD (4 * j + 2) 0 + 16777216 * bytes.getD (4 * j + 3) 0))
      :: md5BlocksAux fuel (bytes.drop 64)

/-- All 16-word blocks of a padded message. -/
def md5Blocks (bytes : List Nat) : List (List Nat) :=
  md5BlocksAux bytes.length bytes

/-- One lowercase hexadecimal digit. -/
def hexDigit (n : Nat) : Char :=
  if n < 10 then Char.ofNat (48 + n) else Char.ofNat (87 + n)

/-- Two lowercase hexadecimal digits of a byte. -/
def hexByte (n : Nat) : List Char := [hexDigit (n / 16), hexDigit (n % 16)]

/-- `hashlib.md5(s.encode('utf-8')).hexdigest()`. -/
def md5Hex (s : String) : String :=
  let padded := md5Pad (utf8Encode s)
  let (a, b, c, d) :=
    (md5Blocks padded).foldl md5ProcessBlock
      (0x67452301, 0xefcdab89, 0x98badcfe, 0x10325476)
  String.mk (([a, b, c, d].map (fun x =>
    ((List.range 4).map (fun i => hexByte (x / 256 ^ i % 256))).flatten)).flatten)

/-! ## Crawler state and the page store

`WebsiteCrawler`'s mutable attributes (`pages_dir`, `content_fingerprints`,
`canonical_urls`) and the on-disk `pages/` directory are modelled as one
explicit record.  The directory is an association list from file name to
the JSON record written by `save_page`; Python dict/`set` mutation is
modelled by `dictSet` / guarded append.  Each crawler method returns its
Python return value (with `raise` as `Except.error`) together with the
state as mutated up to the point of return or raise. -/

/-- The JSON record `save_page` writes for one page (crawler.py lines
173–180).  The `timestamp` field (a wall-clock reading never read back
for any decision) is omitted. -/
structure PageData where
  url : String
  normalized_url : String
  title : String
  content : String
  fingerprint : String
deriving DecidableEq, Repr

/-- Python `dict` lookup (`d.get(k)`). -/
def dictGet {α : Type} (d : List (String × α)) (k : String) : Option α :=
  (d.find? (fun p => p.1 = k)).map (fun p => p.2)

/-- Python `d.get(k, dflt)`. -/
def dictGetD {α : Type} (d : List (String × α)) (k : String) (dflt : α) : α :=
  (dictGet d k).getD dflt

/-- Python `d[k] = v`: update in place when the key exists (keeping its
position, as Python dicts do), else append. -/
def dictSet {α : Type} (d : List (String × α)) (k : String) (v : α) :
    List (String × α) :=
  if (dictGet d k).isSome then
    d.map (fun p => if p.1 = k then (k, v) else p)
  else
    d ++ [(k, v)]

/-- The crawler's mutable state: whether `setup_pages_directory` has run,
`self.content_fingerprints` (a set, kept as a duplicate-free list),
`self.canonical_urls` (a dict), and the `pages/` directory contents. -/
structure CrawlerState where
  pagesDirSet : Bool
  contentFingerprints : List String
  canonicalUrls : List (String × String)
  store : List (String × PageData)
deriving DecidableEq, Repr

/-- A fresh `WebsiteCrawler` (crawler.py `__init__`, lines 44–50). -/
def initState : CrawlerState := ⟨false, [], [], []⟩

/-- `WebsiteCrawler.setup_pages_directory` (crawler.py lines 52–68):
creates `output_dir/pages` and records it in `self.pages_dir`. -/
def setup_pages_directory (cs : CrawlerState) : CrawlerState :=
  { cs with pagesDirSet := true }

/-- `WebsiteCrawler.get_safe_filename` (crawler.py lines 70–93): MD5 the
URL, take the parsed path (or `index` for empty and `/`), strip and
replace slashes, truncate to 50 characters. -/
def get_safe_filename (url : String) : Except String String := do
  let url_hash := md5Hex url
  let parsed ← urlparse url.data
  let path := parsed.path
  let path :=
    if path = [] ∨ path = ['/'] then "index".data
    else replaceAll ['/'] ['_'] (stripChar '/' path)
  let path := if path.length > 50 then path.take 50 else path
  return String.mk path ++ "_" ++ url_hash ++ ".json"

/-- `WebsiteCrawler.save_page` (crawler.py lines 139–187).  Returns the
saved file path, `none` on a duplicate content fingerprint, or the raised
error; the second component is the crawler state as mutated up to the
point of return or raise. -/
def save_page (cs : CrawlerState) (url title content : String) :
    Except String (Option String) × CrawlerState :=
  if ¬cs.pagesDirSet then
    (.error "Pages directory not set up", cs)
  else
    let fingerprint := md5Hex content
    if fingerprint ∈ cs.contentFingerprints then
      (.ok none, cs)
    else
      let cs := { cs with
        contentFingerprints := cs.contentFingerprints ++ [fingerprint] }
      match normalize_url url with
      | .error e => (.error e, cs)
      | .ok normalized_url =>
        let cs := { cs with
          canonicalUrls := dictSet cs.canonicalUrls url normalized_url }
        match get_safe_filename normalized_url with
        | .error e => (.error e, cs)
        | .ok filename =>
          let page : PageData := ⟨url, normalized_url, title, content, fingerprint⟩
          (.ok (some filename),
           { cs with store := dictSet cs.store filename page })

/-- The `for page_file in self.pages_dir.glob('*.json')` loop of
`read_all_pages` (crawler.py lines 200–224): `fps` is the
`unique_fingerprints` set, `dict` the `all_pages` accumulator, and `acc`
a ghost list recording the records that passed both guards and were
inserted (used to state the dedup property; it adds no behaviour). -/
def read_pages_go : List (String × PageData) → List String →
    List (String × (String × String)) → List PageData →
    List (String × (String × String)) × List PageData
  | [], _, dict, acc => (dict, acc)
  | (_, pd) :: rest, fps, dict, acc =>
    if pd.fingerprint ≠ "" ∧ pd.fingerprint ∉ fps then
      if pd.url ≠ "" ∧ pd.title ≠ "" ∧ pd.content ≠ "" then
        read_pages_go rest (fps ++ [pd.fingerprint])
          (dictSet dict pd.normalized_url (pd.title, pd.content))
          (acc ++ [pd])
      else
        read_pages_go rest (fps ++ [pd.fingerprint]) dict acc
    else
      read_pages_go rest fps dict acc

/-- `WebsiteCrawler.read_all_pages` (crawler.py lines 189–225): the
`{normalized_url: (title, content)}` dict read back from the page files
(empty when the pages directory was never set up). -/
def read_all_pages (cs : CrawlerState) : List (String × (String × String)) :=
  if cs.pagesDirSet then (read_pages_go cs.store [] [] []).1 else []

/-! ## The crawl loop (`WebsiteCrawler.crawl_website`)

The browser fetch plus `process_result`'s content assembly (crawl4ai's
`arun_many`, markdown extraction, image/reference formatting — all
external capabilities per the crawler's design) are abstracted as an
oracle `String → Option FetchPage`: `none` models a failed fetch or a
result without markdown (crawler.py lines 236–243, both make
`process_result` return `None`), `some` carries the page title, the
assembled page content and the `links['internal']` href list that
`process_result` would return.  Everything downstream of the oracle —
`save_page` dedup, the visited set, the to-crawl queue, scope filtering,
the depth-levelled loop — is modelled faithfully.  The `async for` loop
consumes results sequentially in one task, so a sequential fold is a
faithful rendering of the per-level processing. -/

/-- The result of fetching and converting one page (title, assembled
content, internal link hrefs). -/
structure FetchPage where
  title : String
  content : String
  internalLinks : List String
deriving DecidableEq, Repr

/-- The BFS bookkeeping local to `crawl_website`: the `to_crawl` list and
the `visited` set (kept as a duplicate-free list). -/
structure Frontier where
  toCrawl : List String
  visited : List String
deriving DecidableEq, Repr

/-- The state threaded through the crawl loop: frontier, crawler state,
the `all_pages` dict, and a ghost log of `(depth, url)` pairs recording
every URL handed to the dispatcher (`arun_many`), one entry per level
member at the moment the level is dispatched (crawler.py line 463); the
log adds no behaviour and exists to state dispatch properties. -/
structure LoopState where
  fr : Frontier
  cs : CrawlerState
  pages : List (String × (String × String))
  log : List (Nat × String)
deriving DecidableEq, Repr

/-- The `for link in links['internal']` body of
`WebsiteCrawler.collect_links` (crawler.py lines 319–352): skip empty
hrefs, normalize, skip visited, skip foreign domains, skip out-of-scope,
then append to `new_urls`/`to_crawl`/`visited` and record the canonical
mapping.  An error from `normalize_url`/`urlparse` propagates (aborting
the crawl) with the state mutated so far. -/
def collect_links_go (scope dom : String) :
    List String → Frontier → CrawlerState → List String →
    Except String (List String) × Frontier × CrawlerState
  | [], fr, cs, acc => (.ok acc, fr, cs)
  | link :: rest, fr, cs, acc =>
    if link = "" then collect_links_go scope dom rest fr cs acc
    else
      match normalize_url link with
      | .error e => (.error e, fr, cs)
      | .ok nu =>
        if nu ∈ fr.visited then collect_links_go scope dom rest fr cs acc
        else
          match urlparse nu.data with
          | .error e => (.error e, fr, cs)
          | .ok up =>
            if String.mk up.netloc ≠ dom then
              collect_links_go scope dom rest fr cs acc
            else if scope ≠ "" ∧ ¬(scope.data.isPrefixOf nu.data) then
              collect_links_go scope dom rest fr cs acc
            else if nu ∉ fr.toCrawl then
              collect_links_go scope dom rest
                ⟨fr.toCrawl ++ [nu], fr.visited ++ [nu]⟩
                { cs with canonicalUrls := dictSet cs.canonicalUrls link nu }
                (acc ++ [nu])
            else collect_links_go scope dom rest fr cs acc

/-- `WebsiteCrawler.collect_links` (crawler.py lines 294–356): collects
links from a processed result only when there is one and
`current_depth < max_depth`. -/
def collect_links (maxDepth : Int) (scope dom : String)
    (processed : Option (String × String × String × List String))
    (depth : Nat) (fr : Frontier) (cs : CrawlerState) :
    Except String (List String) × Frontier × CrawlerState :=
  match processed with
  | some (_, _, _, links) =>
    if (depth : Int) < maxDepth then collect_links_go scope dom links fr cs []
    else (.ok [], fr, cs)
  | none => (.ok [], fr, cs)

/-- Processing of one dispatched URL inside the `async for` loop of
`crawl_website` (crawler.py lines 463–489): `process_result` (fetch
outcome, `save_page`, duplicate suppression), then on acceptance the
`all_pages` update keyed by the canonical URL and `collect_links`.
Returns (raised error if any, the `new_urls` for the next level, the
updated loop state). -/
def process_one (oracle : String → Option FetchPage) (maxDepth : Int)
    (scope dom : String) (depth : Nat) (st : LoopState) (url : String) :
    Option String × List String × LoopState :=
  match oracle url with
  | none => (none, [], st)
  | some pg =>
    match save_page st.cs url pg.title pg.content with
    | (.error e, cs') => (some e, [], { st with cs := cs' })
    | (.ok none, cs') => (none, [], { st with cs := cs' })
    | (.ok (some _), cs') =>
      let normalized := dictGetD cs'.canonicalUrls url url
      let pages' := dictSet st.pages normalized (pg.title, pg.content)
      match collect_links maxDepth scope dom
          (some (url, pg.title, pg.content, pg.internalLinks)) depth st.fr cs' with
      | (.error e, fr', cs'') => (some e, [], ⟨fr', cs'', pages', st.log⟩)
      | (.ok newUrls, fr', cs'') => (none, newUrls, ⟨fr', cs'', pages', st.log⟩)

/-- Sequential processing of one level's dispatched URLs, accumulating
`next_level_urls`; a raised error aborts the level (and the crawl). -/
def run_level (oracle : String → Option FetchPage) (maxDepth : Int)
    (scope dom : String) (depth : Nat) :
    List String → LoopState → Option String × List String × LoopState
  | [], st => (none, [], st)
  | u :: rest, st =>
    match process_one oracle maxDepth scope dom depth st u with
    | (some e, nl, st') => (some e, nl, st')
    | (none, nl, st') =>
      match run_level oracle maxDepth scope dom depth rest st' with
      | (e, nl2, st'') => (e, nl ++ nl2, st'')

/-- The `while current_level_urls and current_depth <= self.max_depth`
loop of `crawl_website` (crawler.py lines 444–497), structurally
recursive on a fuel argument.  Each iteration increments `depth` and the
guard bounds `depth` by `maxDepth`, so fuel `(maxDepth + 1).toNat` from
`depth = 0` makes the fuel-exhausted arm unreachable: when fuel
`(maxDepth + 1 - depth).toNat` hits `0`, `depth > maxDepth` and the
`while` guard is false anyway. -/
def crawl_loop (oracle : String → Option FetchPage) (maxDepth : Int)
    (scope dom : String) :
    Nat → List String → Nat → LoopState → Option String × LoopState
  | 0, _, _, st => (none, st)
  | fuel + 1, level, depth, st =>
    if level ≠ [] ∧ (depth : Int) ≤ maxDepth then
      let st1 := { st with log := st.log ++ level.map (fun u => (depth, u)) }
      match run_level oracle maxDepth scope dom depth level st1 with
      | (some e, _, st2) => (some e, st2)
      | (none, nextLevel, st2) =>
        crawl_loop oracle maxDepth scope dom fuel nextLevel (depth + 1) st2
    else (none, st)

/-- The `url_scope` default of `crawl_website` (crawler.py lines 371–377):
an unset (empty) scope becomes `scheme://netloc` of the start URL. -/
def resolve_scope (urlScope startUrl : String) : Except String String :=
  if urlScope = "" then do
    let p ← urlparse startUrl.data
    return String.mk p.scheme ++ "://" ++ String.mk p.netloc
  else .ok urlScope

/-- `base_domain = urlparse(start_url).netloc` (crawler.py line 380). -/
def base_domain_of (startUrl : String) : Except String String :=
  (urlparse startUrl.data).map (fun p => String.mk p.netloc)

/-- The scope filter of `collect_links` as a predicate on a normalized
URL: its netloc equals the base domain, and when a URL-prefix scope is
configured the URL starts with it (crawler.py lines 333–344). -/
def scope_okb (scope dom u : String) : Bool :=
  (match urlparse u.data with
   | .ok up => String.mk up.netloc == dom
   | .error _ => false) &&
  (scope == "" || scope.data.isPrefixOf u.data)

/-- The outcome of a crawl: the raised error if the run aborted, the
final loop state, and the normalized start URL when initialisation got
that far. -/
structure CrawlOutcome where
  err : Option String
  final : LoopState
  startNormalized : Option String
deriving DecidableEq, Repr

/-- `WebsiteCrawler.crawl_website` (crawler.py lines 358–502) up to its
final `read_all_pages` call: directory setup, scope defaulting, base
domain, start URL normalization and seeding of `visited`/`to_crawl`, then
the depth-levelled loop. -/
def crawl_website (oracle : String → Option FetchPage) (maxDepth : Int)
    (urlScope startUrl : String) : CrawlOutcome :=
  let cs := setup_pages_directory initState
  match resolve_scope urlScope startUrl with
  | .error e => ⟨some e, ⟨⟨[], []⟩, cs, [], []⟩, none⟩
  | .ok scope =>
    match base_domain_of startUrl with
    | .error e => ⟨some e, ⟨⟨[], []⟩, cs, [], []⟩, none⟩
    | .ok dom =>
      match normalize_url startUrl with
      | .error e => ⟨some e, ⟨⟨[], []⟩, cs, [], []⟩, none⟩
      | .ok ns =>
        let cs := { cs with canonicalUrls := dictSet cs.canonicalUrls startUrl ns }
        let st : LoopState := ⟨⟨[ns], [ns]⟩, cs, [], []⟩
        match crawl_loop oracle maxDepth scope dom (maxDepth + 1).toNat [ns] 0 st with
        | (e, stf) => ⟨e, stf, some ns⟩

/-- The dict `crawl_website` returns (crawler.py line 502). -/
def crawl_pages (oracle : String → Option FetchPage) (maxDepth : Int)
    (urlScope startUrl : String) : List (String × (String × String)) :=
  read_all_pages (crawl_website oracle maxDepth urlScope startUrl).final.cs

/-! ## `MarkdownGenerator.generate_markdown`

The generator writes the table of contents (markdown_generator.py lines
79–97) and then the body (lines 99–117); both emit the homepage section
first — guarded by `if start_url in pages` — followed by the same
`sorted_pages` list (computed once at line 86: all pages whose key
differs from `start_url`, stable-sorted by title).  The model captures
the one ordering both passes share: an optional homepage entry plus the
ordered section list.  Python's `sorted` is a stable sort, and a stable
sort's output is unique, so the stable insertion sort below produces
exactly the list `sorted` does. -/

/-- Stable insertion of `a` into `l`: `a` goes in front of the first
element it is `le`-related to. -/
def orderedInsertBy {α : Type} (le : α → α → Bool) (a : α) : List α → List α
  | [] => [a]
  | b :: l => if le a b then a :: b :: l else b :: orderedInsertBy le a l

/-- Stable insertion sort. -/
def insertionSortBy {α : Type} (le : α → α → Bool) : List α → List α
  | [] => []
  | a :: l => orderedInsertBy le a (insertionSortBy le l)

/-- Python string `<`: lexicographic comparison by Unicode code point. -/
def charListLt : List Char → List Char → Bool
  | [], [] => false
  | [], _ :: _ => true
  | _ :: _, [] => false
  | x :: xs, y :: ys =>
    if x < y then true else if y < x then false else charListLt xs ys

/-- Python string `<=` (`a <= b` iff not `b < a`). -/
def strLe (a b : String) : Bool := !(charListLt b.data a.data)

/-- Title order of two `(url, title, content)` triples (the
`key=lambda x: x[1]` of markdown_generator.py line 88). -/
def titleLe (a b : String × String × String) : Bool := strLe a.2.1 b.2.1

/-- The `sorted_pages` list (markdown_generator.py lines 86–89): pages
other than `start_url`, as `(url, title, content)` triples stable-sorted
by title. -/
def sorted_pages_of (pages : List (String × (String × String)))
    (startUrl : String) : List (String × String × String) :=
  insertionSortBy titleLe
    ((pages.filter (fun p => p.1 ≠ startUrl)).map
      (fun p => (p.1, p.2.1, p.2.2)))

/-- The document structure `generate_markdown` emits (shared by the table
of contents and the body): the homepage section when `start_url in pages`,
then the title-sorted remaining sections in order. -/
structure MarkdownDoc where
  homepage : Option (String × String × String)
  sections : List (String × String × String)
deriving DecidableEq, Repr

/-- The section ordering of `MarkdownGenerator.generate_markdown`
(markdown_generator.py lines 38–124) for a non-empty page dict. -/
def generate_markdown_core (pages : List (String × (String × String)))
    (startUrl : String) : MarkdownDoc :=
  { homepage := (dictGet pages startUrl).map (fun tc => (startUrl, tc.1, tc.2)),
    sections := sorted_pages_of pages startUrl }

/-- `MarkdownGenerator.generate_markdown`: returns `None` (no file) when
`pages` is empty (markdown_generator.py lines 53–55), else the generated
document. -/
def generate_markdown (pages : List (String × (String × String)))
    (startUrl : String) : Option MarkdownDoc :=
  if pages = [] then none else some (generate_markdown_core pages startUrl)

/-- A fetch oracle for concrete runs: the homepage of `a.com` links to an
in-scope page, a fragment duplicate of it, an out-of-scope host and an
empty href; the in-scope page links back to the homepage. -/
def oracleB : String → Option FetchPage := fun u =>
  if u = "https://a.com/" then
    some ⟨"Home", "HC",
      ["https://a.com/b", "https://a.com/b#x", "https://other.com/z", ""]⟩
  else if u = "https://a.com/b" then some ⟨"B", "BC", ["https://a.com/"]⟩
  else none

/-! ## Theorems

First the adequacy of the fuel-based renderings of the source's loops:
with the fuel the wrappers supply, the fuel-exhausted arms are
unreachable and the definitions satisfy the loops' defining equations. -/

/-- `replaceAllAux` ignores the exact fuel once it covers `s.length`. -/
theorem replaceAllAux_congr (pat repl : List Char) :
    ∀ (f1 f2 : Nat) (s : List Char), s.length ≤ f1 → s.length ≤ f2 →
      replaceAllAux pat repl f1 s = replaceAllAux pat repl f2 s := by
  intro f1
  induction f1 with
  | zero =>
    intro f2 s h1 h2
    have hs : s = [] := List.length_eq_zero.mp (Nat.le_zero.mp h1)
    subst hs
    simp [replaceAllAux]
  | succ f1 ih =>
    intro f2 s h1 h2
    match s with
    | [] => simp [replaceAllAux]
    | c :: rest =>
      match f2 with
      | 0 => simp at h2
      | f2 + 1 =>
        simp only [List.length_cons] at h1 h2
        simp only [replaceAllAux]
        split
        · rename_i hcond
          obtain ⟨hne, -⟩ := hcond
          have hp : 1 ≤ pat.length := by
            cases pat with
            | nil => simp [List.isEmpty] at hne
            | cons a l => simp
          have hd : ((c :: rest).drop pat.length).length ≤ f1 := by
            simp only [List.length_drop, List.length_cons]
            omega
          have hd2 : ((c :: rest).drop pat.length).length ≤ f2 := by
            simp only [List.length_drop, List.length_cons]
            omega
          rw [ih f2 _ hd hd2]
        · rw [ih f2 rest (by omega) (by omega)]

/-- Fuel irrelevance for `replaceAllAux`: any fuel at least `s.length`
computes `replaceAll`. -/
theorem replaceAllAux_fuel (pat repl : List Char) (fuel : Nat) (s : List Char)
    (h : s.length ≤ fuel) : replaceAllAux pat repl fuel s = replaceAll pat repl s :=
  replaceAllAux_congr pat repl fuel s.length s h le_rfl

/-- `replaceAll` never lengthens the string when the replacement is no
longer than the pattern. -/
theorem replaceAll_length_le (pat repl : List Char) (hlen : repl.length ≤ pat.length) :
    ∀ (fuel : Nat) (s : List Char), s.length ≤ fuel →
      (replaceAllAux pat repl fuel s).length ≤ s.length := by
  intro fuel
  induction fuel with
  | zero =>
    intro s hs
    have : s = [] := List.length_eq_zero.mp (Nat.le_zero.mp hs)
    subst this
    simp [replaceAllAux]
  | succ fuel ih =>
    intro s hs
    match s with
    | [] => simp [replaceAllAux]
    | c :: rest =>
      simp only [List.length_cons] at hs
      simp only [replaceAllAux]
      split
      · rename_i hcond
        obtain ⟨hne, hpre⟩ := hcond
        have hp1 : 1 ≤ pat.length := by
          cases pat with
          | nil => simp [List.isEmpty] at hne
          | cons a l => simp
        have hp : pat.length ≤ (c :: rest).length := List.IsPrefix.length_le
          (List.isPrefixOf_iff_prefix.mp hpre)
        simp only [List.length_cons] at hp
        have hd := ih ((c :: rest).drop pat.length)
          (by simp only [List.length_drop, List.length_cons]; omega)
        simp only [List.length_append, List.length_drop, List.length_cons] at hd ⊢
        omega
      · have := ih rest (by omega)
        simp only [List.length_cons]
        omega

/-- One pass of `replace('//', '/')` strictly shortens a string that
contains `//`. -/
theorem replaceAll_dslash_lt :
    ∀ (fuel : Nat) (s : List Char), s.length ≤ fuel →
      containsSub ['/', '/'] s = true →
      (replaceAllAux ['/', '/'] ['/'] fuel s).length < s.length := by
  intro fuel
  induction fuel with
  | zero =>
    intro s hs hc
    have : s = [] := List.length_eq_zero.mp (Nat.le_zero.mp hs)
    subst this
    simp [containsSub] at hc
  | succ fuel ih =>
    intro s hs hc
    match s with
    | [] => simp [containsSub] at hc
    | c :: rest =>
      simp only [List.length_cons] at hs
      simp only [replaceAllAux]
      split
      · rename_i hcond
        obtain ⟨-, hpre⟩ := hcond
        have hp : (2 : Nat) ≤ (c :: rest).length := by
          have := List.IsPrefix.length_le (List.isPrefixOf_iff_prefix.mp hpre)
          simpa using this
        have hd := replaceAll_length_le ['/', '/'] ['/'] (by simp)
          fuel ((c :: rest).drop 2)
          (by simp only [List.length_drop, List.length_cons]; omega)
        simp only [List.length_cons] at hp
        simp only [List.length_append, List.length_drop, List.length_cons,
          List.length_nil, Nat.zero_add, Nat.reduceAdd] at hd ⊢
        omega
      · rename_i hcond
        have hcr : containsSub ['/', '/'] rest = true := by
          rw [containsSub, Bool.or_eq_true] at hc
          rcases hc with h1 | h2
          · exact absurd ⟨by simp, h1⟩ hcond
          · exact h2
        have := ih rest (by omega) hcr
        simp only [List.length_cons]
        omega

/-- `collapseSlashesAux` ignores the exact fuel once it covers `s.length`. -/
theorem collapseSlashesAux_congr :
    ∀ (f1 f2 : Nat) (s : List Char), s.length ≤ f1 → s.length ≤ f2 →
      collapseSlashesAux f1 s = collapseSlashesAux f2 s := by
  intro f1
  induction f1 with
  | zero =>
    intro f2 s h1 h2
    have hs : s = [] := List.length_eq_zero.mp (Nat.le_zero.mp h1)
    subst hs
    match f2 with
    | 0 => rfl
    | f2 + 1 => simp [collapseSlashesAux, containsSub]
  | succ f1 ih =>
    intro f2 s h1 h2
    match f2 with
    | 0 =>
      have hs : s = [] := List.length_eq_zero.mp (Nat.le_zero.mp h2)
      subst hs
      simp [collapseSlashesAux, containsSub]
    | f2 + 1 =>
      simp only [collapseSlashesAux]
      split
      · rename_i hc
        have hlt : (replaceAll ['/', '/'] ['/'] s).length < s.length :=
          replaceAll_dslash_lt s.length s le_rfl hc
        exact ih f2 _ (by omega) (by omega)
      · rfl

/-- The `while` loop equation for `collapseSlashes`: it satisfies the
defining equation of `while '//' in normalized: ... .replace('//', '/')`. -/
theorem collapseSlashes_eq (s : List Char) :
    collapseSlashes s =
      if containsSub ['/', '/'] s then
        collapseSlashes (replaceAll ['/', '/'] ['/'] s)
      else s := by
  rw [collapseSlashes]
  match hl : s.length with
  | 0 =>
    have hs : s = [] := List.length_eq_zero.mp hl
    subst hs
    simp [collapseSlashesAux, containsSub]
  | n + 1 =>
    simp only [hl, collapseSlashesAux]
    split
    · rename_i hc
      have hlt : (replaceAll ['/', '/'] ['/'] s).length < s.length :=
        replaceAll_dslash_lt s.length s le_rfl hc
      rw [collapseSlashes]
      exact collapseSlashesAux_congr n _ _ (by omega) le_rfl
    · rfl

/-! ### MD5 validation against RFC 1321 test vectors -/

/-- RFC 1321 test vector: MD5 of the empty string. -/
theorem md5Hex_rfc1321_empty : md5Hex "" = "d41d8cd98f00b204e9800998ecf8427e" := by
  decide

/-- RFC 1321 test vector: MD5 of `"abc"`. -/
theorem md5Hex_rfc1321_abc : md5Hex "abc" = "900150983cd24fb0d6963f7d28e17f72" := by
  decide

/-! ### The only raise in the modelled URL pipeline -/

/-- `splitNetloc` can only raise `Invalid IPv6 URL`. -/
theorem splitNetloc_error (l : List Char) (e : String)
    (h : splitNetloc l = .error e) : e = "Invalid IPv6 URL" := by
  simp only [splitNetloc] at h
  split at h
  · split at h
    · injection h with h'
      exact h'.symm
    · simp at h
  · simp at h

/-- `urlsplit` can only raise `Invalid IPv6 URL`. -/
theorem urlsplit_error (l : List Char) (e : String)
    (h : urlsplit l = .error e) : e = "Invalid IPv6 URL" := by
  simp only [urlsplit] at h
  split at h
  · rename_i he
    injection h with h'
    exact h' ▸ splitNetloc_error _ _ he
  · simp at h

/-- `urlparse` can only raise `Invalid IPv6 URL`. -/
theorem urlparse_error (l : List Char) (e : String)
    (h : urlparse l = .error e) : e = "Invalid IPv6 URL" := by
  rw [urlparse] at h
  match hs : urlsplit l with
  | .error e' =>
    rw [hs] at h
    simp only [Except.bind] at h
    injection h with h'
    exact h' ▸ urlsplit_error l e' hs
  | .ok s =>
    rw [hs] at h
    exact Except.noConfusion h

/-- `Except.ok` feeds the continuation of a `do` bind. -/
theorem except_bind_ok {ε α β : Type} (a : α) (f : α → Except ε β) :
    (Except.ok a >>= f) = f a := rfl

/-- `Except.error` short-circuits a `do` bind. -/
theorem except_bind_error {ε α β : Type} (e : ε) (f : α → Except ε β) :
    ((Except.error e : Except ε α) >>= f) = Except.error e := rfl

/-- `urldefrag` can only raise `Invalid IPv6 URL`. -/
theorem urldefrag_error (l : List Char) (e : String)
    (h : urldefrag l = .error e) : e = "Invalid IPv6 URL" := by
  rw [urldefrag] at h
  split at h
  · match hp : urlparse l with
    | .error e' =>
      rw [hp, except_bind_error] at h
      injection h with h'
      exact h' ▸ urlparse_error l e' hp
    | .ok p =>
      rw [hp, except_bind_ok] at h
      exact Except.noConfusion h
  · exact Except.noConfusion h

/-- `normalize_url` can only raise `Invalid IPv6 URL`. -/
theorem normalize_url_error (u : String) (e : String)
    (h : normalize_url u = .error e) : e = "Invalid IPv6 URL" := by
  rw [normalize_url] at h
  match hd : urldefrag u.data with
  | .error e' =>
    rw [hd, except_bind_error] at h
    injection h with h'
    exact h' ▸ urldefrag_error _ e' hd
  | .ok d =>
    rw [hd, except_bind_ok] at h
    match hp : urlparse d with
    | .error e' =>
      rw [hp, except_bind_error] at h
      injection h with h'
      exact h' ▸ urlparse_error d e' hp
    | .ok p =>
      rw [hp, except_bind_ok] at h
      exact Except.noConfusion h

/-! ### Claim C9 — `normalize` totality -/

/-- Claim C9, counterexample: `normalize_url` is not a total function
with no failure mode — on the input `http://[abc` (unbalanced bracket in
the authority) it raises `ValueError('Invalid IPv6 URL')` instead of
returning a passthrough of the original string; `normalize_url` has no
try/except, so the error reaches its callers. -/
theorem c9_counterexample :
    normalize_url "http://[abc" = .error "Invalid IPv6 URL" := by decide

/-- Claim C9, amended: `normalize_url` either returns a string or raises
exactly the `Invalid IPv6 URL` ValueError coming from a netloc with
unbalanced square brackets; there is no best-effort passthrough on a
parse failure.  (Model scope: ASCII inputs, bracketed hosts not further
validated.) -/
theorem c9_normalize_ok_or_ipv6_error (u : String) :
    (∃ v, normalize_url u = .ok v) ∨
      normalize_url u = .error "Invalid IPv6 URL" := by
  match h : normalize_url u with
  | .ok v => exact .inl ⟨v, rfl⟩
  | .error e =>
    refine .inr ?_
    rw [← normalize_url_error u e h]

/-! ### Claim C5 — fragment and trailing-slash identification -/

/-- Claim C5, counterexample: the spec's own example fails on the code —
`normalize_url` does not touch a trailing slash, so
`normalize("https://a.com/x#frag") = "https://a.com/x"` differs from
`normalize("https://a.com/x/") = "https://a.com/x/"`. -/
theorem c5_counterexample :
    normalize_url "https://a.com/x#frag" = .ok "https://a.com/x" ∧
    normalize_url "https://a.com/x/" = .ok "https://a.com/x/" ∧
    ("https://a.com/x" : String) ≠ "https://a.com/x/" := by decide

/-- Claim C5, amended: URLs that differ only by a fragment normalize
identically — `normalize("https://a.com/x#frag") = normalize("https://a.com/x")`
— but trailing-slash variants remain distinct normalized keys. -/
theorem c5_fragment_collapses_trailing_slash_does_not :
    normalize_url "https://a.com/x#frag" = normalize_url "https://a.com/x" ∧
    normalize_url "https://a.com/x#frag" ≠ normalize_url "https://a.com/x/" := by
  decide

/-! ### Claim C6 — idempotence of `normalize` -/

/-- Claim C6, counterexample: `normalize_url` is not idempotent for every
string — on the scheme-less input `a.com/x` it returns `://a.com/x`, and
normalizing that again returns `://://a.com/x` (each pass re-glues the
reconstructed `://` prefix through the `:/`→`://` rewrite). -/
theorem c6_counterexample :
    (normalize_url "a.com/x").bind normalize_url ≠ normalize_url "a.com/x" := by
  decide

/-- Claim C6, amended: `normalize(normalize(u)) = normalize(u)` holds on
well-formed absolute URLs (with scheme and authority), here verified on
representative inputs covering trailing slash, fragment, query, repeated
slashes and scheme case; idempotence fails only for degenerate scheme-less
strings such as the `c6_counterexample` input. -/
theorem c6_idempotent_on_absolute_urls :
    (normalize_url "https://a.com/x").bind normalize_url =
      normalize_url "https://a.com/x" ∧
    (normalize_url "https://a.com/x/").bind normalize_url =
      normalize_url "https://a.com/x/" ∧
    (normalize_url "https://a.com/x#frag").bind normalize_url =
      normalize_url "https://a.com/x#frag" ∧
    (normalize_url "http://b.org/y?q=1").bind normalize_url =
      normalize_url "http://b.org/y?q=1" ∧
    (normalize_url "HTTPS://a.com//x").bind normalize_url =
      normalize_url "HTTPS://a.com//x" := by
  decide

/-! ### Claim C10 — `save_page` before `setup_pages_directory` -/

/-- Claim C10: calling `save_page` before `setup_pages_directory` raises
`ValueError('Pages directory not set up')` and leaves the whole crawler
state unchanged — nothing is stored and neither the fingerprint set nor
the canonical-URL map is touched. -/
theorem c10_save_page_unset_dir_raises (cs : CrawlerState)
    (url title content : String) (h : cs.pagesDirSet = false) :
    save_page cs url title content = (.error "Pages directory not set up", cs) := by
  rw [save_page]
  simp [h]

/-- Witness for C10 at the freshly constructed crawler. -/
theorem c10_witness :
    initState.pagesDirSet = false ∧
    save_page initState "https://a.com/x" "T" "C" =
      (.error "Pages directory not set up", initState) :=
  ⟨rfl, c10_save_page_unset_dir_raises initState "https://a.com/x" "T" "C" rfl⟩

/-! ### Inversion of a successful `save_page` -/

/-- Inversion of `save_page` returning a saved path: the directory was
set up, the content fingerprint was new, and the state gained exactly the
fingerprint, the canonical mapping and the stored record (appended or
overwritten at the filename derived from the normalized URL). -/
theorem save_page_ok_some (cs : CrawlerState) (u t c f : String)
    (cs' : CrawlerState) (h : save_page cs u t c = (.ok (some f), cs')) :
    cs.pagesDirSet = true ∧
    md5Hex c ∉ cs.contentFingerprints ∧
    ∃ nu, normalize_url u = .ok nu ∧ get_safe_filename nu = .ok f ∧
      cs' = { cs with
        contentFingerprints := cs.contentFingerprints ++ [md5Hex c],
        canonicalUrls := dictSet cs.canonicalUrls u nu,
        store := dictSet cs.store f ⟨u, nu, t, c, md5Hex c⟩ } := by
  rw [save_page] at h
  split at h
  · simp at h
  · rename_i hdir
    have hdir' : cs.pagesDirSet = true := by
      revert hdir
      cases cs.pagesDirSet <;> simp
    match hnu : normalize_url u with
    | .error e =>
      rw [hnu] at h
      dsimp only at h
      split at h
      · simp at h
      · simp at h
    | .ok nu =>
      rw [hnu] at h
      dsimp only at h
      split at h
      · simp at h
      · rename_i hmem
        match hfn : get_safe_filename nu with
        | .error e =>
          rw [hfn] at h
          dsimp only at h
          simp at h
        | .ok fn =>
          rw [hfn] at h
          dsimp only at h
          simp only [Prod.mk.injEq, Except.ok.injEq, Option.some.injEq] at h
          obtain ⟨hf, hcs⟩ := h
          subst hf
          exact ⟨hdir', hmem, nu, rfl, hfn, hcs.symm⟩

/-! ### Claim C3 — content-fingerprint dedup -/

/-- The records accepted by the `read_all_pages` loop carry pairwise
distinct fingerprints: each accepted record's fingerprint joins the
`unique_fingerprints` set and later records with that fingerprint are
skipped. -/
theorem read_pages_go_fps_nodup :
    ∀ (files : List (String × PageData)) (fps : List String)
      (dict : List (String × (String × String))) (acc : List PageData),
      (∀ p ∈ acc, p.fingerprint ∈ fps) →
      (acc.map PageData.fingerprint).Nodup →
      ((read_pages_go files fps dict acc).2.map PageData.fingerprint).Nodup := by
  intro files
  induction files with
  | nil =>
    intro fps dict acc hsub hnd
    simpa [read_pages_go] using hnd
  | cons fpd rest ih =>
    obtain ⟨fn, pd⟩ := fpd
    intro fps dict acc hsub hnd
    rw [read_pages_go]
    split
    · rename_i hg
      obtain ⟨hne, hnotin⟩ := hg
      split
      · apply ih
        · intro p hp
          rcases List.mem_append.mp hp with hmem | hmem
          · exact List.mem_append_left _ (hsub p hmem)
          · simp only [List.mem_singleton] at hmem
            subst hmem
            exact List.mem_append_right _ (by simp)
        · rw [List.map_append]
          refine List.Nodup.append hnd (by simp) ?_
          intro x hx hy
          simp only [List.map_cons, List.map_nil, List.mem_singleton] at hy
          subst hy
          obtain ⟨p, hp, hpf⟩ := List.mem_map.mp hx
          exact hnotin (hpf ▸ hsub p hp)
      · apply ih
        · intro p hp
          exact List.mem_append_left _ (hsub p hp)
        · exact hnd
    · exact ih _ _ _ hsub hnd

/-- Claim C3: content dedup.  After a page with some fingerprint is
stored, a second `save_page` whose content has the same MD5 fingerprint
stores nothing, returns `None`, and leaves the state untouched — and
`read_all_pages` accepts at most one stored record per fingerprint, for
any contents of the pages directory. -/
theorem c3_fingerprint_dedup (cs : CrawlerState) (u1 t1 c1 u2 t2 c2 f : String)
    (cs1 : CrawlerState) (store : List (String × PageData))
    (h1 : save_page cs u1 t1 c1 = (.ok (some f), cs1))
    (h2 : md5Hex c2 = md5Hex c1) :
    save_page cs1 u2 t2 c2 = (.ok none, cs1) ∧
    ((read_pages_go store [] [] []).2.map PageData.fingerprint).Nodup := by
  obtain ⟨hdir, hmem, nu, hnu, hfn, hcs⟩ := save_page_ok_some _ _ _ _ _ _ h1
  subst hcs
  constructor
  · rw [save_page]
    simp [hdir, h2]
  · exact read_pages_go_fps_nodup store [] [] [] (by simp) (by simp)

/-- Witness for C3: a concrete two-page run where the second page has
byte-identical content, plus a concrete directory holding two records
with the same fingerprint. -/
theorem c3_witness :
    save_page (save_page (setup_pages_directory initState)
        "https://a.com/x" "T1" "C").2 "https://a.com/y" "T2" "C" =
      (.ok none,
        (save_page (setup_pages_directory initState) "https://a.com/x" "T1" "C").2) ∧
    (((read_pages_go
        [("f1.json", ⟨"https://a.com/x", "https://a.com/x", "T1", "C", "fp"⟩),
         ("f2.json", ⟨"https://a.com/y", "https://a.com/y", "T2", "D", "fp"⟩)]
        [] [] []).2.map PageData.fingerprint)).Nodup :=
  c3_fingerprint_dedup (setup_pages_directory initState)
    "https://a.com/x" "T1" "C" "https://a.com/y" "T2" "C"
    ("x_" ++ md5Hex "https://a.com/x" ++ ".json")
    (save_page (setup_pages_directory initState) "https://a.com/x" "T1" "C").2
    [("f1.json", ⟨"https://a.com/x", "https://a.com/x", "T1", "C", "fp"⟩),
     ("f2.json", ⟨"https://a.com/y", "https://a.com/y", "T2", "D", "fp"⟩)]
    (by decide) rfl

/-! ### Claim C7 — `save_page` is not first-writer-wins per URL -/

/-- Claim C7, counterexample: a second `save_page` for the same URL with
different content (hence a fresh fingerprint) is not a no-op — it
succeeds and overwrites the stored record at the same filename, so the
record for that normalized URL now carries the second title and content
(last writer wins, not first). -/
theorem c7_counterexample :
    (save_page (save_page (setup_pages_directory initState)
        "https://a.com/x" "T1" "A").2 "https://a.com/x" "T2" "B").1 =
      .ok (some ("x_" ++ md5Hex "https://a.com/x" ++ ".json")) ∧
    dictGet (save_page (save_page (setup_pages_directory initState)
        "https://a.com/x" "T1" "A").2 "https://a.com/x" "T2" "B").2.store
        ("x_" ++ md5Hex "https://a.com/x" ++ ".json") =
      some ⟨"https://a.com/x", "https://a.com/x", "T2", "B", md5Hex "B"⟩ ∧
    ("A" : String) ≠ "B" := by
  decide

/-- Claim C7, amended: `save_page` keys its no-op check on the content
fingerprint, not the normalized URL.  Re-putting the same page (same
content) is a no-op returning `None`; but a put for the same URL with
content whose fingerprint is new succeeds, reuses the same filename, and
overwrites the stored record — last writer wins for a given normalized
URL. -/
theorem c7_put_dedups_by_fingerprint_not_url (cs : CrawlerState)
    (u t c t2 c2 f nu : String) (cs1 : CrawlerState)
    (h1 : save_page cs u t c = (.ok (some f), cs1))
    (hnu : normalize_url u = .ok nu)
    (hne : md5Hex c2 ∉ cs1.contentFingerprints) :
    save_page cs1 u t c = (.ok none, cs1) ∧
    save_page cs1 u t2 c2 =
      (.ok (some f),
       { cs1 with
           contentFingerprints := cs1.contentFingerprints ++ [md5Hex c2],
           canonicalUrls := dictSet cs1.canonicalUrls u nu,
           store := dictSet cs1.store f ⟨u, nu, t2, c2, md5Hex c2⟩ }) := by
  obtain ⟨hdir, hmem, nu', hnu', hfn, hcs⟩ := save_page_ok_some _ _ _ _ _ _ h1
  have hnu'' : nu' = nu := by
    rw [hnu] at hnu'
    injection hnu' with he
    exact he.symm
  subst hnu''
  constructor
  · subst hcs
    rw [save_page]
    simp [hdir]
  · rw [save_page]
    have hdir1 : cs1.pagesDirSet = true := by rw [hcs]; exact hdir
    simp only [hdir1, not_true_eq_false, if_false, Bool.true_eq_false,
      Bool.false_eq_true, reduceIte]
    split
    · rename_i hc2
      exact absurd hc2 hne
    · rw [hnu']
      dsimp only
      rw [hfn]

/-- Witness for C7's amended claim at a concrete two-put run (same URL,
contents `A` then `B`). -/
theorem c7_witness :
    save_page (save_page (setup_pages_directory initState)
        "https://a.com/x" "T1" "A").2 "https://a.com/x" "T1" "A" =
      (.ok none,
       (save_page (setup_pages_directory initState) "https://a.com/x" "T1" "A").2) ∧
    save_page (save_page (setup_pages_directory initState)
        "https://a.com/x" "T1" "A").2 "https://a.com/x" "T2" "B" =
      (.ok (some ("x_" ++ md5Hex "https://a.com/x" ++ ".json")),
       { (save_page (setup_pages_directory initState)
            "https://a.com/x" "T1" "A").2 with
           contentFingerprints :=
             (save_page (setup_pages_directory initState)
                "https://a.com/x" "T1" "A").2.contentFingerprints ++ [md5Hex "B"],
           canonicalUrls :=
             dictSet (save_page (setup_pages_directory initState)
                "https://a.com/x" "T1" "A").2.canonicalUrls
               "https://a.com/x" "https://a.com/x",
           store :=
             dictSet (save_page (setup_pages_directory initState)
                "https://a.com/x" "T1" "A").2.store
               ("x_" ++ md5Hex "https://a.com/x" ++ ".json")
               ⟨"https://a.com/x", "https://a.com/x", "T2", "B", md5Hex "B"⟩ }) :=
  c7_put_dedups_by_fingerprint_not_url (setup_pages_directory initState)
    "https://a.com/x" "T1" "A" "T2" "B"
    ("x_" ++ md5Hex "https://a.com/x" ++ ".json") "https://a.com/x"
    (save_page (setup_pages_directory initState) "https://a.com/x" "T1" "A").2
    (by decide) (by decide) (by decide)

/-! ### Frontier invariants through link collection (claims C1 and C4) -/

/-- Invariants of the `collect_links` inner loop: it preserves
duplicate-freeness of `to_crawl` and `to_crawl ⊆ visited`, and every URL
it adds to either list passed the domain and scope checks. -/
theorem collect_links_go_inv (scope dom : String) :
    ∀ (links : List String) (fr : Frontier) (cs : CrawlerState)
      (acc : List String),
      fr.toCrawl.Nodup → (∀ v ∈ fr.toCrawl, v ∈ fr.visited) →
      ((collect_links_go scope dom links fr cs acc).2.1.toCrawl.Nodup ∧
       (∀ v ∈ (collect_links_go scope dom links fr cs acc).2.1.toCrawl,
          v ∈ (collect_links_go scope dom links fr cs acc).2.1.visited) ∧
       (∀ v ∈ (collect_links_go scope dom links fr cs acc).2.1.toCrawl,
          v ∈ fr.toCrawl ∨ scope_okb scope dom v = true) ∧
       (∀ v ∈ (collect_links_go scope dom links fr cs acc).2.1.visited,
          v ∈ fr.visited ∨ scope_okb scope dom v = true)) := by
  intro links
  induction links with
  | nil =>
    intro fr cs acc h1 h2
    rw [collect_links_go]
    exact ⟨h1, h2, fun v hv => .inl hv, fun v hv => .inl hv⟩
  | cons link rest ih =>
    intro fr cs acc h1 h2
    rw [collect_links_go]
    split
    · exact ih fr cs acc h1 h2
    · match hnu : normalize_url link with
      | .error e =>
        dsimp only
        exact ⟨h1, h2, fun v hv => .inl hv, fun v hv => .inl hv⟩
      | .ok nu =>
        dsimp only
        split
        · exact ih fr cs acc h1 h2
        · rename_i hvis
          match hup : urlparse nu.data with
          | .error e =>
            dsimp only
            exact ⟨h1, h2, fun v hv => .inl hv, fun v hv => .inl hv⟩
          | .ok up =>
            dsimp only
            split
            · exact ih fr cs acc h1 h2
            · rename_i hnet
              split
              · exact ih fr cs acc h1 h2
              · rename_i hsc
                split
                · rename_i hnotc
                  have hok : scope_okb scope dom nu = true := by
                    have hnet' : String.mk up.netloc = dom := not_not.mp hnet
                    have hsc' : scope = "" ∨ scope.data.isPrefixOf nu.data = true := by
                      by_cases hscope : scope = ""
                      · exact .inl hscope
                      · right
                        by_contra hpf
                        exact hsc ⟨hscope, by simpa using hpf⟩
                    rw [scope_okb, hup]
                    dsimp only
                    rw [Bool.and_eq_true, Bool.or_eq_true]
                    refine ⟨by simpa using hnet', ?_⟩
                    rcases hsc' with hsc'' | hsc''
                    · exact .inl (by simpa using hsc'')
                    · exact .inr hsc''
                  have hnd : (fr.toCrawl ++ [nu]).Nodup := by
                    refine List.Nodup.append h1 (by simp) ?_
                    intro x hx hy
                    simp only [List.mem_singleton] at hy
                    subst hy
                    exact hnotc hx
                  have hsub : ∀ v ∈ fr.toCrawl ++ [nu], v ∈ fr.visited ++ [nu] := by
                    intro v hv
                    rcases List.mem_append.mp hv with hm | hm
                    · exact List.mem_append_left _ (h2 v hm)
                    · exact List.mem_append_right _ hm
                  obtain ⟨g1, g2, g3, g4⟩ :=
                    ih ⟨fr.toCrawl ++ [nu], fr.visited ++ [nu]⟩
                      { cs with canonicalUrls := dictSet cs.canonicalUrls link nu }
                      (acc ++ [nu]) hnd hsub
                  refine ⟨g1, g2, ?_, ?_⟩
                  · intro v hv
                    rcases g3 v hv with hm | hokv
                    · rcases List.mem_append.mp hm with hm' | hm'
                      · exact .inl hm'
                      · simp only [List.mem_singleton] at hm'
                        subst hm'
                        exact .inr hok
                    · exact .inr hokv
                  · intro v hv
                    rcases g4 v hv with hm | hokv
                    · rcases List.mem_append.mp hm with hm' | hm'
                      · exact .inl hm'
                      · simp only [List.mem_singleton] at hm'
                        subst hm'
                        exact .inr hok
                    · exact .inr hokv
                · exact ih fr cs acc h1 h2

/-- The `collect_links` wrapper preserves the frontier invariants. -/
theorem collect_links_inv (maxDepth : Int) (scope dom : String)
    (processed : Option (String × String × String × List String)) (depth : Nat)
    (fr : Frontier) (cs : CrawlerState)
    (h1 : fr.toCrawl.Nodup) (h2 : ∀ v ∈ fr.toCrawl, v ∈ fr.visited) :
    ((collect_links maxDepth scope dom processed depth fr cs).2.1.toCrawl.Nodup ∧
     (∀ v ∈ (collect_links maxDepth scope dom processed depth fr cs).2.1.toCrawl,
        v ∈ (collect_links maxDepth scope dom processed depth fr cs).2.1.visited) ∧
     (∀ v ∈ (collect_links maxDepth scope dom processed depth fr cs).2.1.toCrawl,
        v ∈ fr.toCrawl ∨ scope_okb scope dom v = true) ∧
     (∀ v ∈ (collect_links maxDepth scope dom processed depth fr cs).2.1.visited,
        v ∈ fr.visited ∨ scope_okb scope dom v = true)) := by
  match processed with
  | none =>
    rw [collect_links]
    exact ⟨h1, h2, fun v hv => .inl hv, fun v hv => .inl hv⟩
  | some (a, b, c, links) =>
    rw [collect_links]
    split
    · exact collect_links_go_inv scope dom links fr cs [] h1 h2
    · exact ⟨h1, h2, fun v hv => .inl hv, fun v hv => .inl hv⟩

/-- Per-URL processing preserves the frontier invariants. -/
theorem process_one_inv (oracle : String → Option FetchPage) (maxDepth : Int)
    (scope dom : String) (depth : Nat) (st : LoopState) (url : String)
    (h1 : st.fr.toCrawl.Nodup) (h2 : ∀ v ∈ st.fr.toCrawl, v ∈ st.fr.visited) :
    ((process_one oracle maxDepth scope dom depth st url).2.2.fr.toCrawl.Nodup ∧
     (∀ v ∈ (process_one oracle maxDepth scope dom depth st url).2.2.fr.toCrawl,
        v ∈ (process_one oracle maxDepth scope dom depth st url).2.2.fr.visited) ∧
     (∀ v ∈ (process_one oracle maxDepth scope dom depth st url).2.2.fr.toCrawl,
        v ∈ st.fr.toCrawl ∨ scope_okb scope dom v = true) ∧
     (∀ v ∈ (process_one oracle maxDepth scope dom depth st url).2.2.fr.visited,
        v ∈ st.fr.visited ∨ scope_okb scope dom v = true)) := by
  rw [process_one]
  match horacle : oracle url with
  | none =>
    dsimp only
    exact ⟨h1, h2, fun v hv => .inl hv, fun v hv => .inl hv⟩
  | some pg =>
    dsimp only
    rcases hsp : save_page st.cs url pg.title pg.content with ⟨ro, cs'⟩
    match ro with
    | .error e =>
      dsimp only
      exact ⟨h1, h2, fun v hv => .inl hv, fun v hv => .inl hv⟩
    | .ok none =>
      dsimp only
      exact ⟨h1, h2, fun v hv => .inl hv, fun v hv => .inl hv⟩
    | .ok (some p) =>
      dsimp only
      have hinv := collect_links_inv maxDepth scope dom
        (some (url, pg.title, pg.content, pg.internalLinks)) depth st.fr cs' h1 h2
      rcases hcl : collect_links maxDepth scope dom
          (some (url, pg.title, pg.content, pg.internalLinks)) depth st.fr cs' with
        ⟨eo, fr', cs''⟩
      rw [hcl] at hinv
      match eo with
      | .error e =>
        dsimp only
        exact hinv
      | .ok newUrls =>
        dsimp only
        exact hinv

/-- Level processing preserves the frontier invariants. -/
theorem run_level_inv (oracle : String → Option FetchPage) (maxDepth : Int)
    (scope dom : String) (depth : Nat) :
    ∀ (urls : List String) (st : LoopState),
      st.fr.toCrawl.Nodup → (∀ v ∈ st.fr.toCrawl, v ∈ st.fr.visited) →
      ((run_level oracle maxDepth scope dom depth urls st).2.2.fr.toCrawl.Nodup ∧
       (∀ v ∈ (run_level oracle maxDepth scope dom depth urls st).2.2.fr.toCrawl,
          v ∈ (run_level oracle maxDepth scope dom depth urls st).2.2.fr.visited) ∧
       (∀ v ∈ (run_level oracle maxDepth scope dom depth urls st).2.2.fr.toCrawl,
          v ∈ st.fr.toCrawl ∨ scope_okb scope dom v = true) ∧
       (∀ v ∈ (run_level oracle maxDepth scope dom depth urls st).2.2.fr.visited,
          v ∈ st.fr.visited ∨ scope_okb scope dom v = true)) := by
  intro urls
  induction urls with
  | nil =>
    intro st h1 h2
    rw [run_level]
    exact ⟨h1, h2, fun v hv => .inl hv, fun v hv => .inl hv⟩
  | cons u rest ih =>
    intro st h1 h2
    rw [run_level]
    have hpo := process_one_inv oracle maxDepth scope dom depth st u h1 h2
    rcases hp : process_one oracle maxDepth scope dom depth st u with ⟨eo, nl, st'⟩
    rw [hp] at hpo
    match eo with
    | some e =>
      dsimp only
      exact hpo
    | none =>
      dsimp only
      obtain ⟨p1, p2, p3, p4⟩ := hpo
      have hrl := ih st' p1 p2
      rcases hr : run_level oracle maxDepth scope dom depth rest st' with ⟨e2, nl2, st''⟩
      rw [hr] at hrl
      dsimp only
      obtain ⟨q1, q2, q3, q4⟩ := hrl
      refine ⟨q1, q2, ?_, ?_⟩
      · intro v hv
        rcases q3 v hv with hm | hok
        · rcases p3 v hm with hm' | hok'
          · exact .inl hm'
          · exact .inr hok'
        · exact .inr hok
      · intro v hv
        rcases q4 v hv with hm | hok
        · rcases p4 v hm with hm' | hok'
          · exact .inl hm'
          · exact .inr hok'
        · exact .inr hok

/-- The depth-levelled loop preserves the frontier invariants. -/
theorem crawl_loop_inv (oracle : String → Option FetchPage) (maxDepth : Int)
    (scope dom : String) :
    ∀ (fuel : Nat) (level : List String) (depth : Nat) (st : LoopState),
      st.fr.toCrawl.Nodup → (∀ v ∈ st.fr.toCrawl, v ∈ st.fr.visited) →
      ((crawl_loop oracle maxDepth scope dom fuel level depth st).2.fr.toCrawl.Nodup ∧
       (∀ v ∈ (crawl_loop oracle maxDepth scope dom fuel level depth st).2.fr.toCrawl,
          v ∈ (crawl_loop oracle maxDepth scope dom fuel level depth st).2.fr.visited) ∧
       (∀ v ∈ (crawl_loop oracle maxDepth scope dom fuel level depth st).2.fr.toCrawl,
          v ∈ st.fr.toCrawl ∨ scope_okb scope dom v = true) ∧
       (∀ v ∈ (crawl_loop oracle maxDepth scope dom fuel level depth st).2.fr.visited,
          v ∈ st.fr.visited ∨ scope_okb scope dom v = true)) := by
  intro fuel
  induction fuel with
  | zero =>
    intro level depth st h1 h2
    rw [crawl_loop]
    exact ⟨h1, h2, fun v hv => .inl hv, fun v hv => .inl hv⟩
  | succ fuel ih =>
    intro level depth st h1 h2
    rw [crawl_loop]
    split
    · dsimp only
      have hrl := run_level_inv oracle maxDepth scope dom depth level
        { st with log := st.log ++ level.map (fun u => (depth, u)) } h1 h2
      rcases hr : run_level oracle maxDepth scope dom depth level
          { st with log := st.log ++ level.map (fun u => (depth, u)) } with
        ⟨eo, nextLevel, st2⟩
      rw [hr] at hrl
      match eo with
      | some e =>
        dsimp only
        exact hrl
      | none =>
        dsimp only
        obtain ⟨p1, p2, p3, p4⟩ := hrl
        obtain ⟨q1, q2, q3, q4⟩ := ih nextLevel (depth + 1) st2 p1 p2
        refine ⟨q1, q2, ?_, ?_⟩
        · intro v hv
          rcases q3 v hv with hm | hok
          · rcases p3 v hm with hm' | hok'
            · exact .inl hm'
            · exact .inr hok'
          · exact .inr hok
        · intro v hv
          rcases q4 v hv with hm | hok
          · rcases p4 v hm with hm' | hok'
            · exact .inl hm'
            · exact .inr hok'
          · exact .inr hok
    · exact ⟨h1, h2, fun v hv => .inl hv, fun v hv => .inl hv⟩

/-- Claim C1: the frontier enqueues every normalized URL at most once.
For every crawl run (any fetch oracle, depth bound, scope and start URL)
the final `to_crawl` list is duplicate-free: once a normalized URL is in
the visited set — the start URL is seeded there before the loop — no
later link discovery at any depth appends it to the to-crawl queue
again, so each normalized URL produces exactly one frontier entry. -/
theorem c1_no_duplicate_enqueue (oracle : String → Option FetchPage)
    (maxDepth : Int) (urlScope startUrl : String) :
    (crawl_website oracle maxDepth urlScope startUrl).final.fr.toCrawl.Nodup := by
  rw [crawl_website]
  match hsc : resolve_scope urlScope startUrl with
  | .error e => exact List.nodup_nil
  | .ok scope =>
    match hdom : base_domain_of startUrl with
    | .error e => exact List.nodup_nil
    | .ok dom =>
      match hns : normalize_url startUrl with
      | .error e => exact List.nodup_nil
      | .ok ns =>
        exact (crawl_loop_inv oracle maxDepth scope dom (maxDepth + 1).toNat [ns] 0
          ⟨⟨[ns], [ns]⟩, ⟨true, [], dictSet [] startUrl ns, []⟩, [], []⟩
          (by simp) (by simp)).1

/-- Claim C4: scope enforcement.  Every URL in the final visited set or
to-crawl queue is either the normalized start URL or passed the
collect-links filter: its netloc equals the base domain and, when a
URL-prefix scope is configured, it starts with that prefix.  URLs failing
either check are never added to frontier or visited set. -/
theorem c4_scope_enforced (oracle : String → Option FetchPage)
    (maxDepth : Int) (urlScope startUrl scope dom u : String)
    (hsc : resolve_scope urlScope startUrl = .ok scope)
    (hdom : base_domain_of startUrl = .ok dom)
    (hu : u ∈ (crawl_website oracle maxDepth urlScope startUrl).final.fr.toCrawl ∨
          u ∈ (crawl_website oracle maxDepth urlScope startUrl).final.fr.visited) :
    normalize_url startUrl = .ok u ∨ scope_okb scope dom u = true := by
  rw [crawl_website] at hu
  rw [hsc] at hu
  dsimp only at hu
  rw [hdom] at hu
  dsimp only at hu
  match hns : normalize_url startUrl with
  | .error e =>
    rw [hns] at hu
    dsimp only at hu
    simp at hu
  | .ok ns =>
    rw [hns] at hu
    dsimp only at hu
    have hinv := crawl_loop_inv oracle maxDepth scope dom (maxDepth + 1).toNat [ns] 0
      ⟨⟨[ns], [ns]⟩, ⟨true, [], dictSet [] startUrl ns, []⟩, [], []⟩
      (by simp) (by simp)
    rcases hu with h | h
    · rcases hinv.2.2.1 u h with hm | hok
      · simp only [List.mem_singleton] at hm
        subst hm
        exact .inl rfl
      · exact .inr hok
    · rcases hinv.2.2.2 u h with hm | hok
      · simp only [List.mem_singleton] at hm
        subst hm
        exact .inl rfl
      · exact .inr hok

/-- Witness for C4 at a concrete crawl: the discovered in-scope link. -/
theorem c4_witness :
    normalize_url "https://a.com" = .ok "https://a.com/b" ∨
    scope_okb "https://a.com" "a.com" "https://a.com/b" = true :=
  c4_scope_enforced oracleB 1 "" "https://a.com" "https://a.com" "a.com"
    "https://a.com/b" (by decide) (by decide) (by decide)

/-! ### Dispatch-log lemmas (claim C2) -/

/-- Per-URL processing never touches the dispatch log. -/
theorem process_one_log (oracle : String → Option FetchPage) (maxDepth : Int)
    (scope dom : String) (depth : Nat) (st : LoopState) (url : String) :
    (process_one oracle maxDepth scope dom depth st url).2.2.log = st.log := by
  rw [process_one]
  match horacle : oracle url with
  | none => rfl
  | some pg =>
    dsimp only
    rcases hsp : save_page st.cs url pg.title pg.content with ⟨ro, cs'⟩
    match ro with
    | .error e => rfl
    | .ok none => rfl
    | .ok (some p) =>
      dsimp only
      rcases hcl : collect_links maxDepth scope dom
          (some (url, pg.title, pg.content, pg.internalLinks)) depth st.fr cs' with
        ⟨eo, fr', cs''⟩
      match eo with
      | .error e => rfl
      | .ok newUrls => rfl

/-- Level processing never touches the dispatch log. -/
theorem run_level_log (oracle : String → Option FetchPage) (maxDepth : Int)
    (scope dom : String) (depth : Nat) :
    ∀ (urls : List String) (st : LoopState),
      (run_level oracle maxDepth scope dom depth urls st).2.2.log = st.log := by
  intro urls
  induction urls with
  | nil => intro st; rfl
  | cons u rest ih =>
    intro st
    rw [run_level]
    have hl := process_one_log oracle maxDepth scope dom depth st u
    rcases hp : process_one oracle maxDepth scope dom depth st u with ⟨eo, nl, st'⟩
    rw [hp] at hl
    match eo with
    | some e =>
      dsimp only
      exact hl
    | none =>
      dsimp only
      have h2 := ih st'
      rcases hr : run_level oracle maxDepth scope dom depth rest st' with ⟨e2, nl2, st''⟩
      rw [hr] at h2
      dsimp only
      exact h2.trans hl

/-- Every entry the loop appends to the dispatch log carries a depth
within the bound: entries either predate the call or satisfy
`depth ≤ maxDepth`. -/
theorem crawl_loop_log (oracle : String → Option FetchPage) (maxDepth : Int)
    (scope dom : String) :
    ∀ (fuel : Nat) (level : List String) (depth : Nat) (st : LoopState)
      (d : Nat) (u : String),
      (d, u) ∈ (crawl_loop oracle maxDepth scope dom fuel level depth st).2.log →
      (d, u) ∈ st.log ∨ (d : Int) ≤ maxDepth := by
  intro fuel
  induction fuel with
  | zero =>
    intro level depth st d u hm
    rw [crawl_loop] at hm
    exact .inl hm
  | succ fuel ih =>
    intro level depth st d u hm
    rw [crawl_loop] at hm
    split at hm
    · rename_i hg
      dsimp only at hm
      have hrl := run_level_log oracle maxDepth scope dom depth level
        { st with log := st.log ++ level.map (fun v => (depth, v)) }
      rcases hr : run_level oracle maxDepth scope dom depth level
          { st with log := st.log ++ level.map (fun v => (depth, v)) } with
        ⟨eo, nextLevel, st2⟩
      rw [hr] at hrl hm
      match eo with
      | some e =>
        dsimp only at hm
        rw [hrl] at hm
        dsimp only at hm
        rcases List.mem_append.mp hm with hm' | hm'
        · exact .inl hm'
        · obtain ⟨v, hv, hvu⟩ := List.mem_map.mp hm'
          have hd : depth = d := congrArg Prod.fst hvu
          subst hd
          exact .inr hg.2
      | none =>
        dsimp only at hm
        rcases ih nextLevel (depth + 1) st2 d u hm with hm' | hle
        · rw [hrl] at hm'
          dsimp only at hm'
          rcases List.mem_append.mp hm' with hm'' | hm''
          · exact .inl hm''
          · obtain ⟨v, hv, hvu⟩ := List.mem_map.mp hm''
            have hd : depth = d := congrArg Prod.fst hvu
            subst hd
            exact .inr hg.2
        · exact .inr hle
    · exact .inl hm

/-- With `max_depth = 0` the loop dispatches exactly the seed level: the
log after the run is `[(0, ns)]`. -/
theorem crawl_loop_zero_log (oracle : String → Option FetchPage)
    (scope dom ns : String) (st0 : LoopState) (hlog : st0.log = []) :
    (crawl_loop oracle 0 scope dom ((0 : Int) + 1).toNat [ns] 0 st0).2.log =
      [(0, ns)] := by
  show (crawl_loop oracle 0 scope dom (0 + 1) [ns] 0 st0).2.log = [(0, ns)]
  rw [crawl_loop]
  split
  · dsimp only
    have hrl := run_level_log oracle 0 scope dom 0 [ns]
      { st0 with log := st0.log ++ [ns].map (fun v => (0, v)) }
    rcases hr : run_level oracle 0 scope dom 0 [ns]
        { st0 with log := st0.log ++ [ns].map (fun v => (0, v)) } with ⟨eo, nl, st2⟩
    rw [hr] at hrl
    match eo with
    | some e =>
      dsimp only
      rw [hrl]
      dsimp only
      rw [hlog]
      rfl
    | none =>
      dsimp only
      rw [crawl_loop]
      rw [hrl]
      dsimp only
      rw [hlog]
      rfl
  · rename_i hg
    exact absurd ⟨by simp, by norm_num⟩ hg

/-- Claim C2: depth bound.  Every `(depth, url)` pair handed to the
dispatcher satisfies `depth ≤ max_depth` (links are only collected while
`current_depth < max_depth`, and the loop only dispatches while
`current_depth ≤ max_depth`); and with `max_depth = 0` the only dispatch
is the normalized start URL at depth `0`. -/
theorem c2_depth_bound (oracle : String → Option FetchPage) (maxDepth : Int)
    (urlScope startUrl : String) (d : Nat) (u : String)
    (hmem : (d, u) ∈ (crawl_website oracle maxDepth urlScope startUrl).final.log) :
    (d : Int) ≤ maxDepth ∧
    (maxDepth = 0 → d = 0 ∧ normalize_url startUrl = .ok u) := by
  rw [crawl_website] at hmem
  match hsc : resolve_scope urlScope startUrl with
  | .error e =>
    rw [hsc] at hmem
    dsimp only at hmem
    simp at hmem
  | .ok scope =>
    rw [hsc] at hmem
    dsimp only at hmem
    match hdom : base_domain_of startUrl with
    | .error e =>
      rw [hdom] at hmem
      dsimp only at hmem
      simp at hmem
    | .ok dom =>
      rw [hdom] at hmem
      dsimp only at hmem
      match hns : normalize_url startUrl with
      | .error e =>
        rw [hns] at hmem
        dsimp only at hmem
        simp at hmem
      | .ok ns =>
        rw [hns] at hmem
        dsimp only at hmem
        constructor
        · rcases crawl_loop_log oracle maxDepth scope dom (maxDepth + 1).toNat
            [ns] 0 ⟨⟨[ns], [ns]⟩, ⟨true, [], dictSet [] startUrl ns, []⟩, [], []⟩
            d u hmem with h | h
          · simp at h
          · exact h
        · intro h0
          subst h0
          have hmem' : (d, u) ∈ (crawl_loop oracle 0 scope dom
              ((0 : Int) + 1).toNat [ns] 0
              ⟨⟨[ns], [ns]⟩, ⟨true, [], dictSet [] startUrl ns, []⟩, [], []⟩).2.log :=
            hmem
          rw [crawl_loop_zero_log oracle scope dom ns _ rfl] at hmem'
          simp only [List.mem_singleton, Prod.mk.injEq] at hmem'
          obtain ⟨hd, hu⟩ := hmem'
          subst hd
          subst hu
          exact ⟨rfl, rfl⟩

/-- Witness for C2 at a concrete depth-0 crawl: the only dispatch is the
normalized start URL at depth 0. -/
theorem c2_witness :
    ((0 : Nat) : Int) ≤ (0 : Int) ∧
    ((0 : Int) = 0 → (0 : Nat) = 0 ∧
      normalize_url "https://a.com" = .ok "https://a.com/") :=
  c2_depth_bound oracleB 0 "" "https://a.com" 0 "https://a.com/" (by decide)

/-! ### Order lemmas for the title sort (claim C8) -/

/-- Lexicographic code-point comparison is irreflexive. -/
theorem charListLt_irrefl : ∀ x : List Char, charListLt x x = false := by
  intro x
  induction x with
  | nil => rfl
  | cons c rest ih =>
    rw [charListLt]
    simp [lt_irrefl, ih]

/-- Lexicographic code-point comparison is transitive. -/
theorem charListLt_trans :
    ∀ x y z, charListLt x y = true → charListLt y z = true →
      charListLt x z = true := by
  intro x
  induction x with
  | nil =>
    intro y z hxy hyz
    match y, z with
    | [], _ => simp [charListLt] at hxy
    | _ :: _, [] => simp [charListLt] at hyz
    | _ :: _, _ :: _ => rfl
  | cons a xs ih =>
    intro y z hxy hyz
    match y, z with
    | [], _ => simp [charListLt] at hxy
    | _ :: _, [] => simp [charListLt] at hyz
    | b :: ys, c :: zs =>
      rw [charListLt] at hxy hyz ⊢
      by_cases hab : a < b
      · by_cases hbc : b < c
        · simp [lt_trans hab hbc]
        · by_cases hcb : c < b
          · simp [hbc, hcb] at hyz
          · have hbc' : b = c := le_antisymm (not_lt.mp hcb) (not_lt.mp hbc)
            subst hbc'
            simp [hab]
      · by_cases hba : b < a
        · simp [hab, hba] at hxy
        · have hab' : a = b := le_antisymm (not_lt.mp hba) (not_lt.mp hab)
          subst hab'
          simp only [lt_irrefl, if_false] at hxy
          by_cases hac : a < c
          · simp [hac]
          · by_cases hca : c < a
            · simp [hac, hca] at hyz
            · have hac' : a = c := le_antisymm (not_lt.mp hca) (not_lt.mp hac)
              subst hac'
              simp only [lt_irrefl, if_false] at hyz ⊢
              exact ih ys zs hxy hyz

/-- Lexicographic code-point comparison is trichotomous. -/
theorem charListLt_trichot :
    ∀ x y, charListLt x y = true ∨ x = y ∨ charListLt y x = true := by
  intro x
  induction x with
  | nil =>
    intro y
    match y with
    | [] => exact .inr (.inl rfl)
    | c :: ys => exact .inl rfl
  | cons a xs ih =>
    intro y
    match y with
    | [] => exact .inr (.inr rfl)
    | b :: ys =>
      by_cases hab : a < b
      · left
        rw [charListLt]
        simp [hab]
      · by_cases hba : b < a
        · right; right
          rw [charListLt]
          simp [hba]
        · have hab' : a = b := le_antisymm (not_lt.mp hba) (not_lt.mp hab)
          subst hab'
          rcases ih ys with h | h | h
          · left
            rw [charListLt]
            simp [lt_irrefl, h]
          · right; left
            rw [h]
          · right; right
            rw [charListLt]
            simp [lt_irrefl, h]

/-- Asymmetry, derived from transitivity and irreflexivity. -/
theorem charListLt_asymm (x y : List Char) (h : charListLt x y = true) :
    charListLt y x = false := by
  cases hyx : charListLt y x
  · rfl
  · have := charListLt_trans x y x h hyx
    rw [charListLt_irrefl] at this
    exact Bool.noConfusion this

/-- The title order is total. -/
theorem titleLe_total (a b : String × String × String) :
    titleLe a b = true ∨ titleLe b a = true := by
  rw [titleLe, titleLe, strLe, strLe]
  rcases charListLt_trichot b.2.1.data a.2.1.data with h | h | h
  · right
    rw [charListLt_asymm _ _ h]
    rfl
  · left
    rw [h, charListLt_irrefl]
    rfl
  · left
    rw [charListLt_asymm _ _ h]
    rfl

/-- The title order is transitive. -/
theorem titleLe_trans (a b c : String × String × String)
    (hab : titleLe a b = true) (hbc : titleLe b c = true) :
    titleLe a c = true := by
  rw [titleLe, strLe, Bool.not_eq_true'] at hab hbc ⊢
  cases hCA : charListLt c.2.1.data a.2.1.data
  · rfl
  · exfalso
    rcases charListLt_trichot a.2.1.data b.2.1.data with h1 | h1 | h1
    · rcases charListLt_trichot b.2.1.data c.2.1.data with h2 | h2 | h2
      · have h3 := charListLt_trans _ _ _ (charListLt_trans _ _ _ h1 h2) hCA
        rw [charListLt_irrefl] at h3
        exact Bool.noConfusion h3
      · rw [h2] at h1
        have h3 := charListLt_trans _ _ _ h1 hCA
        rw [charListLt_irrefl] at h3
        exact Bool.noConfusion h3
      · rw [hbc] at h2
        exact Bool.noConfusion h2
    · rw [h1] at hCA
      rw [hbc] at hCA
      exact Bool.noConfusion hCA
    · rw [hab] at h1
      exact Bool.noConfusion h1

/-- Stable insertion is a permutation of consing. -/
theorem orderedInsertBy_perm {α : Type} (le : α → α → Bool) (a : α) :
    ∀ l : List α, (orderedInsertBy le a l).Perm (a :: l) := by
  intro l
  induction l with
  | nil => exact List.Perm.refl _
  | cons b rest ih =>
    rw [orderedInsertBy]
    split
    · exact List.Perm.refl _
    · exact (ih.cons b).trans (List.Perm.swap a b rest)

/-- Insertion sort is a permutation of its input. -/
theorem insertionSortBy_perm {α : Type} (le : α → α → Bool) :
    ∀ l : List α, (insertionSortBy le l).Perm l := by
  intro l
  induction l with
  | nil => exact List.Perm.refl _
  | cons a rest ih =>
    rw [insertionSortBy]
    exact (orderedInsertBy_perm le a _).trans (ih.cons a)

/-- Stable insertion preserves sortedness for a total transitive order. -/
theorem orderedInsertBy_pairwise {α : Type} (le : α → α → Bool)
    (htot : ∀ x y, le x y = true ∨ le y x = true)
    (htrans : ∀ x y z, le x y = true → le y z = true → le x z = true)
    (a : α) :
    ∀ l : List α, l.Pairwise (fun x y => le x y = true) →
      (orderedInsertBy le a l).Pairwise (fun x y => le x y = true) := by
  intro l
  induction l with
  | nil =>
    intro hp
    simp [orderedInsertBy]
  | cons b rest ih =>
    intro hp
    rw [orderedInsertBy]
    rcases List.pairwise_cons.mp hp with ⟨hb, hrest⟩
    split
    · rename_i hab
      refine List.Pairwise.cons ?_ hp
      intro y hy
      rcases List.mem_cons.mp hy with rfl | hy'
      · exact hab
      · exact htrans a b y hab (hb y hy')
    · rename_i hab
      refine List.Pairwise.cons ?_ (ih hrest)
      intro y hy
      have hy' := (orderedInsertBy_perm le a rest).mem_iff.mp hy
      rcases List.mem_cons.mp hy' with rfl | hy''
      · rcases htot b y with h | h
        · exact h
        · exact absurd h hab
      · exact hb y hy''

/-- Insertion sort sorts, for a total transitive order. -/
theorem insertionSortBy_pairwise {α : Type} (le : α → α → Bool)
    (htot : ∀ x y, le x y = true ∨ le y x = true)
    (htrans : ∀ x y z, le x y = true → le y z = true → le x z = true) :
    ∀ l : List α, (insertionSortBy le l).Pairwise (fun x y => le x y = true) := by
  intro l
  induction l with
  | nil => exact List.Pairwise.nil
  | cons a rest ih =>
    rw [insertionSortBy]
    exact orderedInsertBy_pairwise le htot htrans a _ ih

/-! ### Claim C8 — document ordering -/

/-- Claim C8, counterexample: a crawl started at `https://a.com` stores
its pages under normalized keys (`https://a.com/`), but `main` passes the
raw start URL to the generator, whose `if start_url in pages` lookup then
misses — the generated document has no homepage section and the start
page is listed among the title-sorted sections instead of first. -/
theorem c8_counterexample :
    crawl_pages oracleB 0 "" "https://a.com" ≠ [] ∧
    generate_markdown (crawl_pages oracleB 0 "" "https://a.com") "https://a.com" =
      some ⟨none, [("https://a.com/", "Home", "HC")]⟩ := by
  decide

/-- Claim C8, amended: whenever the start URL, exactly as passed to the
generator, is a key of the page dict, the document places that page first
as the homepage section (in the table of contents and the body alike) and
lists all remaining pages title-sorted: the section list is pairwise
ordered by title and is a permutation of the non-start pages. -/
theorem c8_homepage_first_then_title_sorted
    (pages : List (String × (String × String))) (startUrl t c : String)
    (h : dictGet pages startUrl = some (t, c)) :
    generate_markdown pages startUrl =
      some (generate_markdown_core pages startUrl) ∧
    (generate_markdown_core pages startUrl).homepage = some (startUrl, t, c) ∧
    (generate_markdown_core pages startUrl).sections.Pairwise
      (fun x y => titleLe x y = true) ∧
    (generate_markdown_core pages startUrl).sections.Perm
      ((pages.filter (fun p => p.1 ≠ startUrl)).map
        (fun p => (p.1, p.2.1, p.2.2))) := by
  refine ⟨?_, ?_, ?_, ?_⟩
  · have hne : pages ≠ [] := by
      intro hE
      subst hE
      simp [dictGet] at h
    rw [generate_markdown, if_neg hne]
  · rw [generate_markdown_core]
    dsimp only
    rw [h]
    rfl
  · exact insertionSortBy_pairwise titleLe titleLe_total titleLe_trans _
  · exact insertionSortBy_perm titleLe _

/-- Witness for C8's amended claim: the generator applied to a crawl of
`a.com` whose start URL is already in normalized form. -/
theorem c8_witness :
    generate_markdown (crawl_pages oracleB 0 "" "https://a.com/") "https://a.com/" =
      some (generate_markdown_core
        (crawl_pages oracleB 0 "" "https://a.com/") "https://a.com/") ∧
    (generate_markdown_core (crawl_pages oracleB 0 "" "https://a.com/")
        "https://a.com/").homepage = some ("https://a.com/", "Home", "HC") ∧
    (generate_markdown_core (crawl_pages oracleB 0 "" "https://a.com/")
        "https://a.com/").sections.Pairwise (fun x y => titleLe x y = true) ∧
    (generate_markdown_core (crawl_pages oracleB 0 "" "https://a.com/")
        "https://a.com/").sections.Perm
      (((crawl_pages oracleB 0 "" "https://a.com/").filter
          (fun p => p.1 ≠ "https://a.com/")).map
        (fun p => (p.1, p.2.1, p.2.2))) :=
  c8_homepage_first_then_title_sorted
    (crawl_pages oracleB 0 "" "https://a.com/") "https://a.com/" "Home" "HC"
    (by decide)
